import Mathlib

/-!
Shallow embedding of the glimpse-extraction pipeline of
`recurrent-visual-attention` (`src/modules.py`, class `glimpse_sensor`).

Tensors are modelled as nested lists of rationals:
an image of shape `(H, W, C)` is `List (List (List ℚ))` (rows, then columns,
then channels); a batch of images is a list of images; a batch of locations
(`(B, 2)` tensor) is a `List (ℚ × ℚ)`.  Fallible tensor operations (index out
of range, `torch.cat` / `np.concatenate` shape checks) return `Except Err`.
Pixel values and coordinates use exact rational arithmetic; Python `int()`
truncation toward zero is `pyInt`, and Python list/tensor slice semantics
(negative indices counted from the end, silent truncation at the extent)
are `pySlice`.
-/

set_option autoImplicit false

namespace RVA

/-- Errors raised by the underlying tensor library in this pipeline. -/
inductive Err where
  /-- an index out of range for the dimension being indexed (IndexError) -/
  | indexOutOfRange : Err
  /-- `torch.cat` / `np.concatenate` given tensors of mismatched shapes -/
  | shapeMismatch : Err
  /-- `np.concatenate` given an empty list of arrays -/
  | emptyConcat : Err
deriving DecidableEq, Repr

/-- A channel vector of one pixel. -/
abbrev Chan : Type := List ℚ

/-- One image row of `W` pixels. -/
abbrev Row : Type := List Chan

/-- One image: `H` rows of `W` pixels of `C` channels. -/
abbrev Image : Type := List Row

/-- Python `int()` applied to an exact rational: truncation toward zero. -/
def pyInt (q : ℚ) : ℤ :=
  if 0 ≤ q then ⌊q⌋ else ⌈q⌉

/-- Python / torch slice `xs[lo:hi]`: negative bounds count from the end,
bounds beyond the extent are silently truncated, no error is ever raised. -/
def pySlice {α : Type} (lo hi : ℤ) (xs : List α) : List α :=
  let n : ℤ := xs.length
  let lo2 : ℕ := (if lo < 0 then max (n + lo) 0 else min lo n).toNat
  let hi2 : ℕ := (if hi < 0 then max (n + hi) 0 else min hi n).toNat
  (xs.take hi2).drop lo2

/-- Lift a torch indexing result: `none` is an IndexError. -/
def liftOpt {α : Type} : Option α → Except Err α
  | none => .error .indexOutOfRange
  | some a => .ok a

/-- Monadic map over a list in `Except`, left to right, stopping at the
first error, as a Python loop of fallible statements does. -/
def mapE {α β : Type} (f : α → Except Err β) : List α → Except Err (List β)
  | [] => .ok []
  | a :: as => do
    let b ← f a
    let bs ← mapE f as
    .ok (b :: bs)

/-- Concatenation of the inner lists (`np`-style join along the first axis). -/
def joinL {α : Type} : List (List α) → List α
  | [] => []
  | xs :: xss => xs ++ joinL xss

/-- Denormalization of one coordinate against extent `T`:
`c * int(T/2) + int(T/2)` (line 67 of `modules.py`); `int(T/2)` is
truncating division. -/
def denormCoord (T : ℕ) (c : ℚ) : ℚ :=
  c * ((T / 2 : ℕ) : ℚ) + ((T / 2 : ℕ) : ℚ)

/-- `glimpse_sensor._denormalize` (lines 66-69): denormalizes the column of
first components and the column of second components of the `(B, 2)`
location tensor against the same extent `T`, and returns
`torch.stack([x_original, y_original])` — a `(2, B)` tensor whose first row
holds the denormalized first components. -/
def denormalize (T : ℕ) (l : List (ℚ × ℚ)) : List (List ℚ) :=
  [l.map (fun c => denormCoord T c.1), l.map (fun c => denormCoord T c.2)]

/-- Torch column indexing `m[:, j]` on a `(R, B)` tensor: raises IndexError
when `j` is out of range for the second dimension, otherwise returns the
column of length `R`. -/
def col (j : ℕ) (m : List (List ℚ)) : Except Err (List ℚ) :=
  if ∀ r ∈ m, j < r.length then .ok (m.map (fun r => r.getD j 0))
  else .error .indexOutOfRange

/-- Shape `(H, W, C)` of a (rectangular) image, read off the leading entries. -/
def imgShape (img : Image) : ℕ × ℕ × ℕ :=
  (img.length, (img.headD []).length, ((img.headD []).headD []).length)

/-- The `size × size` region of `img` whose top-left corner is `(px, py)`,
sliced with Python semantics in both axes
(`p[:, patch_x[i]:patch_x[i]+size, patch_y[i]:patch_y[i]+size, :]`,
line 98 of `modules.py`): no clamping, no padding, silent truncation. -/
def patchOf (img : Image) (px py : ℤ) (size : ℕ) : Image :=
  (pySlice px (px + size) img).map (fun row => pySlice py (py + size) row)

/-- Iteration `i` of the per-sample loop of `_extract_single_patch`
(lines 96-99): index the offset vectors `patch_x`, `patch_y` and the image
batch at `i` (IndexError when out of range) and slice the patch; the slice
corner is the indexed value truncated to an integer. -/
def loopBody (px py : List ℚ) (x : List Image) (size : ℕ) (i : ℕ) :
    Except Err Image := do
  let cx ← liftOpt (px.get? i)
  let cy ← liftOpt (py.get? i)
  let img ← liftOpt (x.get? i)
  .ok (patchOf img (pyInt cx) (pyInt cy) size)

/-- `glimpse_sensor._extract_single_patch` (lines 71-102).  The extent passed
to `_denormalize` is `x.size()[1]`, the height of the (first) image.  The
per-sample loop runs over `x.size()[0]` and indexes `patch_x` / `patch_y`,
which are the two columns of the stacked `(2, B)` coordinate tensor and
hence always have length 2.  `torch.cat` at the end requires all per-sample
patches to have identical shapes. -/
def extractSinglePatch (x : List Image) (l : List (ℚ × ℚ)) (size : ℕ) :
    Except Err (List Image) := do
  let H : ℕ := (x.headD []).length
  let coords := denormalize H l
  let px0 ← col 0 coords
  let py0 ← col 1 coords
  let px := px0.map (fun v => v - ((size / 2 : ℕ) : ℚ))
  let py := py0.map (fun v => v - ((size / 2 : ℕ) : ℚ))
  let patches ← mapE (loopBody px py x size) (List.range x.length)
  match patches with
  | [] => .error .emptyConcat
  | p :: ps =>
      if ∀ q ∈ ps, imgShape q = imgShape p then .ok (p :: ps)
      else .error .shapeMismatch

/-- One step of the patch-size schedule: `size = int(self.s * size)`
(line 52 of `modules.py`); negative products are clamped at 0 by `toNat`
(unreachable for the nonnegative scale factors the claims quantify over). -/
def nextSize (s : ℚ) (size : ℕ) : ℕ :=
  (pyInt (s * (size : ℚ))).toNat

/-- The sizes at which the `k` patches are extracted:
`size_0 = g`, `size_{i+1} = int(s * size_i)` (lines 47-52). -/
def sizeSchedule (g : ℕ) (s : ℚ) (k : ℕ) : List ℕ :=
  (List.range k).map (fun i => (nextSize s)^[i] g)

/-- The loop of lines 48-52 of `extract`: one raw (pre-resize) patch batch
per scheduled size, in order. -/
def rawPatches (g k : ℕ) (s : ℚ) (x : List Image) (l : List (ℚ × ℚ)) :
    Except Err (List (List Image)) :=
  mapE (fun size => extractSinglePatch x l size) (sizeSchedule g s k)

/-- Modelled from the spec: `resize_array` is imported from `utils.py`,
which is not part of the sources; per the spec it resamples each sample's
patch to exactly `g × g` by interpolation (nearest-neighbour index scaling
here), preserving the channel count, and the surrounding code requires it
to deliver shape `(B, 1, g, g, C)` ready for concatenation along axis 1. -/
def resize_array (p : List Image) (g : ℕ) : List (List Image) :=
  p.map (fun img =>
    [(List.range g).map (fun i =>
        (List.range g).map (fun j =>
          (img.getD (i * img.length / g) []).getD
            (j * (img.headD []).length / g) []))])

/-- Lines 58-59 of `extract`: resize a raw patch batch when its recorded
height `p.shape[1]` differs from `g`, otherwise keep it unchanged and only
insert the patch axis (`np.expand_dims(p, 1)`). -/
def resizeStep (g : ℕ) (p : List Image) : List (List Image) :=
  if (p.headD []).length ≠ g then resize_array p g
  else p.map (fun img => [img])

/-- `np.concatenate(phi, 1)` (line 62) on a list of `(B, 1, g, g, C)`
arrays: raises on an empty list, checks that every dimension other than
axis 1 agrees, and joins the per-sample slices along the patch axis. -/
def concat1 (phis : List (List (List Image))) :
    Except Err (List (List Image)) :=
  match phis with
  | [] => .error .emptyConcat
  | p :: ps =>
      if ∀ q ∈ p :: ps, q.length = p.length ∧
          ∀ sl ∈ q, ∀ im ∈ sl, imgShape im = imgShape ((p.headD []).headD [])
      then .ok ((List.range p.length).map
          (fun b => joinL ((p :: ps).map (fun q => q.getD b []))))
      else .error .shapeMismatch

/-- `glimpse_sensor.extract` (lines 45-64): extract the `k` raw patch
batches at the scheduled sizes, resize each batch whose height is not `g`,
and concatenate along the patch axis. -/
def extract (g k : ℕ) (s : ℚ) (x : List Image) (l : List (ℚ × ℚ)) :
    Except Err (List (List Image)) := do
  let raw ← rawPatches g k s x l
  concat1 (raw.map (resizeStep g))

/-- The reference procedure the spec states for `k = 1`: denormalize each
sample's own location (height extent for the row axis, per the claims),
crop one `g × g` patch with top-left corner at the denormalized center
minus `g // 2`, no resizing, and insert the patch axis. -/
def referenceExtractK1 (g : ℕ) (x : List Image) (l : List (ℚ × ℚ)) :
    List (List Image) :=
  (x.zip l).map (fun p =>
    [patchOf p.1
      (pyInt (denormCoord (x.headD []).length p.2.1 - ((g / 2 : ℕ) : ℚ)))
      (pyInt (denormCoord (x.headD []).length p.2.2 - ((g / 2 : ℕ) : ℚ))) g])

/-- A concrete square `4 × 4 × 1` gradient image: pixel `(i, j)` holds
`4 * i + j`. -/
def img4 : Image :=
  (List.range 4).map (fun i => (List.range 4).map (fun j => [((i * 4 + j : ℕ) : ℚ)]))

/-- A concrete non-square `2 × 6 × 1` gradient image (`H = 2`, `W = 6`):
pixel `(i, j)` holds `6 * i + j`. -/
def img26 : Image :=
  (List.range 2).map (fun i => (List.range 6).map (fun j => [((i * 6 + j : ℕ) : ℚ)]))

/-- A minimal `1 × 1 × 1` image. -/
def img1 : Image := [[[0]]]

end RVA

deriving instance DecidableEq for Except

namespace RVA

/-! Basic reduction lemmas for the `Except` pipeline. -/

@[simp] theorem error_bind {α β : Type} (e : Err) (f : α → Except Err β) :
    (Except.error e >>= f : Except Err β) = .error e := rfl

@[simp] theorem ok_bind {α β : Type} (a : α) (f : α → Except Err β) :
    (Except.ok a >>= f : Except Err β) = f a := rfl

theorem mapE_cons_err {α β : Type} (f : α → Except Err β) (a : α)
    (as : List α) (e : Err) (h : f a = .error e) :
    mapE f (a :: as) = .error e := by
  simp only [mapE]
  rw [h, error_bind]

theorem mapE_cons_ok {α β : Type} (f : α → Except Err β) (a : α)
    (as : List α) (b : β) (h : f a = .ok b) :
    mapE f (a :: as) = mapE f as >>= (fun bs => .ok (b :: bs)) := by
  simp only [mapE]
  rw [h, ok_bind]

/-- `col` on the output of `denormalize` fails exactly when the column index
reaches the batch size. -/
theorem col_denorm_err (T : ℕ) (l : List (ℚ × ℚ)) (j : ℕ)
    (h : l.length ≤ j) :
    col j (denormalize T l) = .error .indexOutOfRange := by
  rw [col, if_neg]
  intro hall
  have h1 := hall (l.map (fun c => denormCoord T c.1)) (by simp [denormalize])
  simp only [List.length_map] at h1
  omega

/-- `col` on the output of `denormalize` succeeds below the batch size and
returns the length-2 column of the stacked `(2, B)` tensor. -/
theorem col_denorm_ok (T : ℕ) (l : List (ℚ × ℚ)) (j : ℕ)
    (h : j < l.length) :
    col j (denormalize T l) =
      .ok [(l.map (fun c => denormCoord T c.1)).getD j 0,
           (l.map (fun c => denormCoord T c.2)).getD j 0] := by
  rw [col, if_pos]
  · rfl
  · intro r hr
    simp only [denormalize, List.mem_cons, List.not_mem_nil, or_false] at hr
    rcases hr with h1 | h1 <;> subst h1 <;> simpa using h

theorem range_add_three (n : ℕ) :
    List.range (n + 3) = 0 :: 1 :: 2 :: (List.range n).map (fun i => i + 3) := by
  simp only [show n + 3 = (n + 2) + 1 from rfl, show n + 2 = (n + 1) + 1 from rfl,
    show n + 1 = n + 1 from rfl, List.range_succ_eq_map, List.map_cons, List.map_map]
  rfl

/-- With only two offsets available, the per-sample loop fails at `i = 2`
whatever the third image is, erroring out of the whole map. -/
theorem mapE_loopBody_err (a1 a2 b1 b2 : ℚ) (x0 x1 x2 : Image)
    (xr : List Image) (size : ℕ) (rest : List ℕ) :
    mapE (loopBody [a1, a2] [b1, b2] (x0 :: x1 :: x2 :: xr) size)
      (0 :: 1 :: 2 :: rest) = .error .indexOutOfRange := rfl

/-- `_extract_single_patch` raises IndexError for every batch size other
than 2: with at most one location, column 1 of the stacked `(2, B)` tensor
does not exist; with three or more samples, the loop indexes the length-2
offset vectors out of range. -/
theorem extractSinglePatch_err (x : List Image) (l : List (ℚ × ℚ))
    (size : ℕ)
    (h : l.length ≤ 1 ∨ (x.length = l.length ∧ 3 ≤ l.length)) :
    extractSinglePatch x l size = .error .indexOutOfRange := by
  rcases h with h | ⟨hx, h3⟩
  · match l, h with
    | [], _ => rfl
    | [c], _ => rfl
  · obtain ⟨x0, x1, x2, xr, rfl⟩ : ∃ a b c r, x = a :: b :: c :: r := by
      match x, hx with
      | a :: b :: c :: r, _ => exact ⟨a, b, c, r, rfl⟩
      | [], hx => simp at hx; omega
      | [a], hx => simp at hx; omega
      | [a, b], hx => simp at hx; omega
    simp only [extractSinglePatch]
    rw [col_denorm_ok _ _ 0 (by omega), ok_bind,
        col_denorm_ok _ _ 1 (by omega), ok_bind]
    have hlen : (x0 :: x1 :: x2 :: xr).length = xr.length + 3 := by
      simp only [List.length_cons]
    rw [hlen, range_add_three]
    simp only [List.map_cons, List.map_nil]
    rw [mapE_loopBody_err, error_bind]

/-- For `k ≥ 1` the size schedule starts at `g`, so a failing
`_extract_single_patch` at size `g` fails the whole `extract` call. -/
theorem sizeSchedule_succ (g : ℕ) (s : ℚ) (k : ℕ) :
    sizeSchedule g s (k + 1) =
      g :: (List.range k).map (fun i => (nextSize s)^[i + 1] g) := by
  simp only [sizeSchedule, List.range_succ_eq_map, List.map_cons, List.map_map]
  rfl

theorem extract_err_of_esp (g k : ℕ) (s : ℚ) (x : List Image)
    (l : List (ℚ × ℚ)) (e : Err) (hk : 1 ≤ k)
    (h : extractSinglePatch x l g = .error e) :
    extract g k s x l = .error e := by
  obtain ⟨k2, rfl⟩ : ∃ k2, k = k2 + 1 := ⟨k - 1, by omega⟩
  simp only [extract, rawPatches]
  rw [sizeSchedule_succ, mapE_cons_err _ _ _ _ h, error_bind]

/-! Lemmas about the Python slice semantics used by the patch cut. -/

/-- A slice whose lower bound is in range but whose upper bound exceeds the
extent keeps exactly the elements from the lower bound to the end. -/
theorem pySlice_upper_overflow {α : Type} (xs : List α) (lo : ℤ) (size : ℕ)
    (hlo : 0 ≤ lo) (hover : (xs.length : ℤ) < lo + size) :
    pySlice lo (lo + size) xs = xs.drop lo.toNat := by
  simp only [pySlice]
  have hsz : ¬ ((lo + (size : ℤ)) < 0) := by omega
  have hlo2 : ¬ (lo < 0) := by omega
  rw [if_neg hlo2, if_neg hsz]
  have hmin : min (lo + (size : ℤ)) (xs.length : ℤ) = (xs.length : ℤ) := by omega
  rw [hmin]
  rw [show ((xs.length : ℤ)).toNat = xs.length from rfl, List.take_length]
  rcases le_or_lt lo (xs.length : ℤ) with hle | hgt
  · rw [min_eq_left hle]
  · rw [min_eq_right (le_of_lt hgt)]
    rw [show ((xs.length : ℤ)).toNat = xs.length from rfl]
    rw [List.drop_length, List.drop_eq_nil_of_le (by omega)]

/-! Lemmas about the patch size schedule with an integer scale factor. -/

theorem pyInt_natCast (n : ℕ) : pyInt ((n : ℕ) : ℚ) = (n : ℤ) := by
  rw [pyInt, if_pos (by positivity)]
  exact_mod_cast Int.floor_natCast n

theorem nextSize_natCast (m n : ℕ) : nextSize ((m : ℕ) : ℚ) n = m * n := by
  rw [nextSize, show ((m : ℕ) : ℚ) * ((n : ℕ) : ℚ) = (((m * n : ℕ) : ℕ) : ℚ) by
    push_cast; ring]
  rw [pyInt_natCast]
  exact Int.toNat_natCast (m * n)

theorem iterate_nextSize (m g : ℕ) (i : ℕ) :
    (nextSize ((m : ℕ) : ℚ))^[i] g = m ^ i * g := by
  induction i with
  | zero => simp
  | succ n ih =>
      rw [Function.iterate_succ_apply', ih, nextSize_natCast, pow_succ]
      ring

/-! Lemmas about the resize step and the final concatenation. -/

theorem resizeStep_length (g : ℕ) (p : List Image) :
    (resizeStep g p).length = p.length := by
  rw [resizeStep]
  split <;> simp [resize_array]

/-- Both branches of the resize step wrap every sample in a patch axis of
length one. -/
theorem resizeStep_singleton (g : ℕ) (p : List Image) (sl : List Image)
    (h : sl ∈ resizeStep g p) : ∃ a, sl = [a] := by
  rw [resizeStep] at h
  split at h <;> simp only [resize_array, List.mem_map] at h <;>
    obtain ⟨img, -, rfl⟩ := h <;> exact ⟨_, rfl⟩

/-- When the recorded height of the raw patch batch equals `g`, the resize
step takes the direct-copy branch and sample `b` is passed through
unchanged. -/
theorem resizeStep_get_of_height (g : ℕ) (p : List Image) (b : ℕ)
    (img : Image) (hg : (p.headD []).length = g) (hb : p.get? b = some img) :
    (resizeStep g p).get? b = some [img] := by
  rw [resizeStep, if_neg (by rw [hg]; exact fun hc => hc rfl)]
  rw [List.get?_map, hb]
  rfl

theorem joinL_get_singletons {α : Type} (L : List (List α))
    (h : ∀ sl ∈ L, ∃ a, sl = [a]) (i : ℕ) :
    (joinL L).get? i = (L.get? i).bind (fun sl => sl.get? 0) := by
  induction L generalizing i with
  | nil => simp [joinL]
  | cons sl rest ih =>
      obtain ⟨a, rfl⟩ := h sl (by simp)
      rw [joinL]
      cases i with
      | zero => rfl
      | succ n =>
          simp only [List.singleton_append, List.get?_cons_succ]
          exact ih (fun q hq => h q (by simp [hq])) n

theorem getD_mem_of_lt {α : Type} (q : List α) (b : ℕ) (d : α)
    (h : b < q.length) : q.getD b d ∈ q := by
  rw [List.getD_eq_get?]
  rcases hq : q.get? b with _ | v
  · rw [List.get?_eq_none] at hq
    omega
  · simpa using List.get?_mem hq

/-- Closed form of `_extract_single_patch` on a batch of exactly two
samples: every coordinate is denormalized against the height of the first
image, and the column offsets of sample 0 come from sample 1's first
location component (and symmetrically), exposing the `(2, B)` transposition
of `_denormalize`. -/
theorem extractSinglePatch_two (x0 x1 : Image) (a b c d : ℚ) (size : ℕ) :
    extractSinglePatch [x0, x1] [(a, b), (c, d)] size =
      (if ∀ q ∈ [patchOf x1
              (pyInt (denormCoord x0.length b - ((size / 2 : ℕ) : ℚ)))
              (pyInt (denormCoord x0.length d - ((size / 2 : ℕ) : ℚ))) size],
            imgShape q = imgShape (patchOf x0
              (pyInt (denormCoord x0.length a - ((size / 2 : ℕ) : ℚ)))
              (pyInt (denormCoord x0.length c - ((size / 2 : ℕ) : ℚ))) size)
       then .ok [patchOf x0
              (pyInt (denormCoord x0.length a - ((size / 2 : ℕ) : ℚ)))
              (pyInt (denormCoord x0.length c - ((size / 2 : ℕ) : ℚ))) size,
            patchOf x1
              (pyInt (denormCoord x0.length b - ((size / 2 : ℕ) : ℚ)))
              (pyInt (denormCoord x0.length d - ((size / 2 : ℕ) : ℚ))) size]
       else .error .shapeMismatch) := rfl

/-- Successful `np.concatenate(phi, 1)`: the output rows are the joins of
the per-sample slices, and all inputs share the leading length. -/
theorem concat1_ok (phis : List (List (List Image)))
    (out : List (List Image)) (h : concat1 phis = .ok out) :
    ∃ p ps, phis = p :: ps ∧ (∀ q ∈ phis, q.length = p.length) ∧
      out = (List.range p.length).map
        (fun b => joinL (phis.map (fun q => q.getD b []))) := by
  match phis with
  | [] => exact absurd h (by rw [concat1]; intro hc; cases hc)
  | p :: ps =>
      rw [concat1] at h
      split at h
      · rename_i hcond
        refine ⟨p, ps, rfl, fun q hq => (hcond q hq).1, ?_⟩
        cases h
        rfl
      · cases h

/-! The claims. -/

/-- Claim C1: the spec promises that `extract` returns a retina tensor of
shape `(B, k, g, g, C)` for every valid configuration and every batch size
`B`; the code contradicts this (and its own docstrings) already at `B = 1`,
where indexing column 1 of the `(2, 1)` stacked coordinate tensor raises an
IndexError instead of producing the `(1, 1, 2, 2, 1)` output. -/
theorem C1_shape_invariant_code_bug :
    extract 2 1 2 [img4] [(0, 0)] = .error .indexOutOfRange := rfl

/-- Claim C2: the spec requires batch independence — per-sample results of
a batched `extract` equal the `B = 1` results.  The code violates this:
first, the `B = 1` call itself raises an IndexError; second, at `B = 2`
sample 0's output changes when only sample 1's location changes (the
column offsets of sample 0 are read from sample 1's first coordinate), a
direct cross-sample leak. -/
theorem C2_batch_independence_code_bug :
    extract 2 1 2 [img4, img4] [(0, 0), (0, 0)] =
      .ok [[[[[5], [6]], [[9], [10]]]], [[[[5], [6]], [[9], [10]]]]]
    ∧ extract 2 1 2 [img4, img4] [(0, 0), (1/2, 1/2)] =
      .ok [[[[[6], [7]], [[10], [11]]]], [[[[6], [7]], [[10], [11]]]]]
    ∧ ([[[[(5:ℚ)], [6]], [[9], [10]]]] : List Image)
        ≠ [[[[6], [7]], [[10], [11]]]]
    ∧ extract 2 1 2 [img4] [(0, 0)] = .error .indexOutOfRange := by
  refine ⟨?_, ?_, ?_, rfl⟩
  · with_unfolding_all decide
  · with_unfolding_all decide
  · with_unfolding_all decide

/-- Claim C3: for every batch size other than 2, `extract` raises an
out-of-range indexing error before producing any result, because
`_denormalize` stacks the coordinates into a `(2, B)` tensor whose columns
0 and 1 are then read as per-sample offset vectors: column 1 does not
exist for `B ≤ 1`, and for `B ≥ 3` the loop indexes the length-2 offset
vectors at `i = 2`. -/
theorem C3_extract_raises_unless_batch_two (g k : ℕ) (s : ℚ)
    (x : List Image) (l : List (ℚ × ℚ)) (hB : x.length = l.length)
    (h2 : l.length ≠ 2) (hk : 1 ≤ k) :
    extract g k s x l = .error .indexOutOfRange :=
  extract_err_of_esp g k s x l .indexOutOfRange hk
    (extractSinglePatch_err x l g (by omega))

theorem C3_extract_raises_unless_batch_two_witness :
    ([img1, img1, img1] : List Image).length = ([(0, 0), (0, 0), (0, 0)] :
      List (ℚ × ℚ)).length
    ∧ ([((0:ℚ), (0:ℚ)), (0, 0), (0, 0)] : List (ℚ × ℚ)).length ≠ 2
    ∧ 1 ≤ 1
    ∧ extract 1 1 1 [img1, img1, img1] [(0, 0), (0, 0), (0, 0)] =
        .error .indexOutOfRange :=
  ⟨by decide, by decide, by decide,
    C3_extract_raises_unless_batch_two 1 1 1 [img1, img1, img1]
      [(0, 0), (0, 0), (0, 0)] (by decide) (by decide) (by decide)⟩

/-- Claim C4 counterexample: the claim asserts `size_i = floor(s^i * g)`
and strict growth for every `s > 1`.  Both parts fail: with `g = 5`,
`s = 3/2`, the schedule is `[5, 7, 10]` although `floor(s^2 * 5) = 11`;
with `g = 1`, `s = 3/2`, the schedule `[1, 1]` is not strictly
increasing. -/
theorem C4_counterexample :
    (1 : ℚ) < 3/2
    ∧ sizeSchedule 5 (3/2) 3 = [5, 7, 10]
    ∧ (10 : ℤ) ≠ ⌊((3/2 : ℚ))^2 * 5⌋
    ∧ sizeSchedule 1 (3/2) 2 = [1, 1] := by
  refine ⟨by norm_num, ?_, ?_, ?_⟩ <;> with_unfolding_all decide

/-- Claim C4, amended: the pre-resize sizes follow the iterated recurrence
`size_0 = g`, `size_{i+1} = int(s * size_i)`; when the scale factor is an
integer `m ≥ 2` and `g ≥ 1` this equals `m^i * g` (which is
`floor(s^i * g)`) and the schedule is strictly increasing. -/
theorem C4_schedule_amended (g k m : ℕ) (hm : 2 ≤ m) (hg : 1 ≤ g) (i : ℕ)
    (hik : i < k) :
    (sizeSchedule g ((m : ℕ) : ℚ) k).get? i = some (m ^ i * g)
    ∧ m ^ i * g < m ^ (i + 1) * g := by
  constructor
  · rw [sizeSchedule, List.get?_map, List.get?_range hik]
    simp only [Option.map_some']
    rw [iterate_nextSize]
  · have h1 : 0 < m ^ i * g :=
      Nat.mul_pos (Nat.pos_pow_of_pos i (by omega)) (by omega)
    have h2 : m ^ (i + 1) * g = (m ^ i * g) * m := by ring
    rw [h2]
    nlinarith [h1]

theorem C4_schedule_amended_witness :
    2 ≤ 2 ∧ 1 ≤ 4 ∧ 1 < 2
    ∧ (sizeSchedule 4 ((2 : ℕ) : ℚ) 2).get? 1 = some (2 ^ 1 * 4)
    ∧ 2 ^ 1 * 4 < 2 ^ (1 + 1) * 4 := by
  refine ⟨by decide, by decide, by decide, ?_, ?_⟩
  · exact (C4_schedule_amended 4 2 2 (by decide) (by decide) 1 (by decide)).1
  · exact (C4_schedule_amended 4 2 2 (by decide) (by decide) 1 (by decide)).2

/-- Claim C5: denormalization computes `c * int(T/2) + int(T/2)` with
truncating division for `T/2`; coordinate `0` maps to `floor(T/2)`,
`-1` maps to `0`, and `1` maps to `2 * floor(T/2)`. -/
theorem C5_denormalization (T : ℕ) (c : ℚ) :
    denormCoord T c = c * ((T / 2 : ℕ) : ℚ) + ((T / 2 : ℕ) : ℚ)
    ∧ denormCoord T 0 = ((T / 2 : ℕ) : ℚ)
    ∧ denormCoord T (-1) = 0
    ∧ denormCoord T 1 = 2 * ((T / 2 : ℕ) : ℚ)
    ∧ ⌊((T : ℚ) / 2)⌋₊ = T / 2 := by
  refine ⟨rfl, ?_, ?_, ?_, ?_⟩
  · rw [denormCoord]; ring
  · rw [denormCoord]; ring
  · rw [denormCoord]; ring
  · exact_mod_cast Nat.floor_div_eq_div (α := ℚ) T 2

/-- Claim C6 counterexample: on a non-square `2 × 6` image (`H = 2`,
`W = 6`) with both locations `(1, 1)`, the raw patch is cut with the
height extent on BOTH axes (column corner `pyInt (denormCoord 2 1 - 1)`),
yielding `[[7, 8]]`; the claim's per-axis rule (width extent `6` on the
width axis, `pyInt (denormCoord 6 1 - 1)`) would yield `[[11]]`. -/
theorem C6_counterexample :
    rawPatches 2 1 2 [img26, img26] [(1, 1), (1, 1)] =
      .ok [[patchOf img26 (pyInt (denormCoord 2 1 - 1))
              (pyInt (denormCoord 2 1 - 1)) 2,
            patchOf img26 (pyInt (denormCoord 2 1 - 1))
              (pyInt (denormCoord 2 1 - 1)) 2]]
    ∧ patchOf img26 (pyInt (denormCoord 2 1 - 1))
        (pyInt (denormCoord 2 1 - 1)) 2 = [[[7], [8]]]
    ∧ patchOf img26 (pyInt (denormCoord 2 1 - 1))
        (pyInt (denormCoord 6 1 - 1)) 2 = [[[11]]]
    ∧ ([[[(7:ℚ)], [8]]] : Image) ≠ [[[11]]] := by
  refine ⟨?_, ?_, ?_, ?_⟩ <;> with_unfolding_all decide

/-- Claim C6, amended: both pixel coordinates are denormalized against the
single extent `x.size()[1]` — the height of the first image; the width
extent is never consulted, so the computation is as the spec describes
only for square images.  (The closed form also records that sample 0's
column offset comes from sample 1's first coordinate.) -/
theorem C6_height_extent_amended (x0 x1 : Image) (a b c d : ℚ) (size : ℕ)
    (hsh : imgShape (patchOf x1
        (pyInt (denormCoord x0.length b - ((size / 2 : ℕ) : ℚ)))
        (pyInt (denormCoord x0.length d - ((size / 2 : ℕ) : ℚ))) size)
      = imgShape (patchOf x0
        (pyInt (denormCoord x0.length a - ((size / 2 : ℕ) : ℚ)))
        (pyInt (denormCoord x0.length c - ((size / 2 : ℕ) : ℚ))) size)) :
    extractSinglePatch [x0, x1] [(a, b), (c, d)] size =
      .ok [patchOf x0
            (pyInt (denormCoord x0.length a - ((size / 2 : ℕ) : ℚ)))
            (pyInt (denormCoord x0.length c - ((size / 2 : ℕ) : ℚ))) size,
          patchOf x1
            (pyInt (denormCoord x0.length b - ((size / 2 : ℕ) : ℚ)))
            (pyInt (denormCoord x0.length d - ((size / 2 : ℕ) : ℚ))) size] := by
  rw [extractSinglePatch_two, if_pos]
  intro q hq
  rw [List.mem_singleton] at hq
  subst hq
  exact hsh

theorem C6_height_extent_amended_witness :
    imgShape (patchOf img26
        (pyInt (denormCoord img26.length 1 - ((2 / 2 : ℕ) : ℚ)))
        (pyInt (denormCoord img26.length 1 - ((2 / 2 : ℕ) : ℚ))) 2)
      = imgShape (patchOf img26
        (pyInt (denormCoord img26.length 1 - ((2 / 2 : ℕ) : ℚ)))
        (pyInt (denormCoord img26.length 1 - ((2 / 2 : ℕ) : ℚ))) 2)
    ∧ extractSinglePatch [img26, img26] [(1, 1), (1, 1)] 2 =
      .ok [patchOf img26
            (pyInt (denormCoord img26.length 1 - ((2 / 2 : ℕ) : ℚ)))
            (pyInt (denormCoord img26.length 1 - ((2 / 2 : ℕ) : ℚ))) 2,
          patchOf img26
            (pyInt (denormCoord img26.length 1 - ((2 / 2 : ℕ) : ℚ)))
            (pyInt (denormCoord img26.length 1 - ((2 / 2 : ℕ) : ℚ))) 2] :=
  ⟨rfl, C6_height_extent_amended img26 img26 1 1 1 1 2 rfl⟩

/-- Claim C7 counterexample: the claim promises the direct-copy fast path
whenever the scheduled size equals `g`.  With `g = 2`, `k = 1` and both
locations `(1, 1)` on a `4 × 4` image the scheduled size is `2 = g`, but
the patch is truncated at the border to `1 × 1`, so the branch condition
`p.shape[1] != g` (which tests the actual height) routes it through the
resampler: the output slice is a `2 × 2` array, not bit-identical to the
extracted `1 × 1` patch. -/
theorem C7_counterexample :
    sizeSchedule 2 2 1 = [2]
    ∧ rawPatches 2 1 2 [img4, img4] [(1, 1), (1, 1)] =
        .ok [[[[[15]]], [[[15]]]]]
    ∧ extract 2 1 2 [img4, img4] [(1, 1), (1, 1)] =
        .ok [[[[[15], [15]], [[15], [15]]]], [[[[15], [15]], [[15], [15]]]]]
    ∧ ([[[(15:ℚ)], [15]], [[15], [15]]] : Image) ≠ [[[15]]] := by
  refine ⟨?_, ?_, ?_, ?_⟩ <;> with_unfolding_all decide

/-- Claim C7, amended: when the raw patch batch at index `i` has actual
recorded height `g` — in particular when the scheduled size is `g` and the
patch lies fully inside the image — the resample step is skipped and slice
`i` of sample `b` of the output is bit-identical to the extracted
patch. -/
theorem C7_fast_path_amended (g k : ℕ) (s : ℚ) (x : List Image)
    (l : List (ℚ × ℚ)) (raw out : List (List Image)) (i b : ℕ)
    (p : List Image) (img : Image)
    (hraw : rawPatches g k s x l = .ok raw)
    (hout : extract g k s x l = .ok out)
    (hi : raw.get? i = some p)
    (hg2 : (p.headD []).length = g)
    (hb : p.get? b = some img) :
    ((out.getD b []).get? i) = some img := by
  have hconcat : concat1 (raw.map (resizeStep g)) = .ok out := by
    rw [extract, hraw, ok_bind] at hout
    exact hout
  obtain ⟨p0, ps, hphis, hlens, hout2⟩ := concat1_ok _ _ hconcat
  obtain ⟨hblt, -⟩ := List.get?_eq_some.mp hb
  have hmem : resizeStep g p ∈ raw.map (resizeStep g) :=
    List.get?_mem (by rw [List.get?_map, hi]; rfl)
  have hlenp : (resizeStep g p).length = p0.length :=
    hlens _ (hphis ▸ hmem)
  have hB : b < p0.length := by
    rw [← hlenp, resizeStep_length]
    exact hblt
  have hout3 : out.get? b =
      some (joinL ((raw.map (resizeStep g)).map (fun q => q.getD b []))) := by
    rw [hout2, List.get?_map, List.get?_range hB, Option.map_some']
  have hsingle : ∀ sl ∈ (raw.map (resizeStep g)).map (fun q => q.getD b []),
      ∃ a2, sl = [a2] := by
    intro sl hsl
    obtain ⟨q, hq, rfl⟩ := List.mem_map.mp hsl
    obtain ⟨q2, hq2, rfl⟩ := List.mem_map.mp hq
    have hqmem : resizeStep g q2 ∈ raw.map (resizeStep g) :=
      List.mem_map_of_mem _ hq2
    have hqlen : b < (resizeStep g q2).length := by
      rw [hlens _ (hphis ▸ hqmem)]
      exact hB
    exact resizeStep_singleton g q2 _ (getD_mem_of_lt _ _ _ hqlen)
  have hstep := resizeStep_get_of_height g p b img hg2 hb
  rw [List.getD_eq_get?, hout3, Option.getD_some,
      joinL_get_singletons _ hsingle i, List.get?_map, List.get?_map, hi]
  have hgd : (resizeStep g p).getD b [] = [img] := by
    rw [List.getD_eq_get?, hstep]
    rfl
  simp only [Option.map_some', Option.some_bind]
  rw [hgd]
  rfl

theorem C7_fast_path_amended_witness :
    rawPatches 2 1 2 [img4, img4] [(0, 0), (0, 0)] =
      .ok [[[[[5], [6]], [[9], [10]]], [[[5], [6]], [[9], [10]]]]]
    ∧ extract 2 1 2 [img4, img4] [(0, 0), (0, 0)] =
      .ok [[[[[5], [6]], [[9], [10]]]], [[[[5], [6]], [[9], [10]]]]]
    ∧ (([[[[(5:ℚ)], [6]], [[9], [10]]], [[[5], [6]], [[9], [10]]]] :
        List Image).get? 0) = some [[[5], [6]], [[9], [10]]]
    ∧ ((([[[[[(5:ℚ)], [6]], [[9], [10]]]], [[[[5], [6]], [[9], [10]]]]] :
        List (List Image)).getD 0 []).get? 0) = some [[[5], [6]], [[9], [10]]] := by
  refine ⟨?_, ?_, by decide, ?_⟩
  · with_unfolding_all decide
  · with_unfolding_all decide
  · exact C7_fast_path_amended 2 1 2 [img4, img4] [(0, 0), (0, 0)]
      [[[[[5], [6]], [[9], [10]]], [[[5], [6]], [[9], [10]]]]]
      [[[[[5], [6]], [[9], [10]]]], [[[[5], [6]], [[9], [10]]]]] 0 0
      [[[[5], [6]], [[9], [10]]], [[[5], [6]], [[9], [10]]]]
      [[[5], [6]], [[9], [10]]]
      (by with_unfolding_all decide) (by with_unfolding_all decide)
      (by decide) (by decide) (by decide)

/-- Claim C8: for `k = 1` the spec's reference procedure (denormalize the
sample's own location, crop a centered `g × g` patch, reshape to
`(B, 1, g, g, C)`) succeeds, but `extract` is not equivalent to it: the
code raises an IndexError for `B = 1` because `_denormalize` hands back a
`(2, 1)` stack whose column 1 does not exist. -/
theorem C8_k1_equivalence_code_bug :
    referenceExtractK1 2 [img4] [(0, 0)] = [[[[[5], [6]], [[9], [10]]]]]
    ∧ extract 2 1 2 [img4] [(0, 0)] = .error .indexOutOfRange := by
  refine ⟨?_, rfl⟩
  with_unfolding_all decide

/-- Claim C9 counterexample: the claim also asserts that a call with an
out-of-bounds patch region does not crash.  It can: with locations
`(0, 1)` and `(0, 0)` on two `4 × 4` images, sample 1's row region
`[3, 5)` overflows the extent 4 and truncates to one row while sample 0
keeps two, and the `torch.cat` at the end of `_extract_single_patch`
raises a shape-mismatch error. -/
theorem C9_counterexample :
    ((img4.length : ℤ) <
      pyInt (denormCoord img4.length 1 - ((2 / 2 : ℕ) : ℚ)) + 2)
    ∧ extractSinglePatch [img4, img4] [(0, 1), (0, 0)] 2 =
        .error .shapeMismatch := by
  refine ⟨?_, ?_⟩ <;> with_unfolding_all decide

/-- Claim C9, amended: the patch slice applies no clamping or padding —
the indices are used as-is, the slicing itself is total, and when the
upper bound exceeds the row extent the slice silently truncates: exactly
the rows from the lower bound to the end survive (each itself sliced
as-is in the width axis), giving a smaller-than-expected (possibly empty)
patch instead of an error.  (The enclosing call can still fail later, in
`torch.cat`, when samples truncate to different shapes — see the
counterexample.) -/
theorem C9_boundary_truncation (img : Image) (px py : ℤ) (size : ℕ)
    (hpx : 0 ≤ px) (hover : (img.length : ℤ) < px + size) (hsz : 0 < size) :
    patchOf img px py size =
      (img.drop px.toNat).map (fun row => pySlice py (py + size) row)
    ∧ (patchOf img px py size).length = img.length - px.toNat
    ∧ (patchOf img px py size).length < size
    ∧ (patchOf img px py size).Sublist
        (img.map (fun row => pySlice py (py + size) row)) := by
  have hmain : patchOf img px py size =
      (img.drop px.toNat).map (fun row => pySlice py (py + size) row) := by
    rw [patchOf, pySlice_upper_overflow img px size hpx hover]
  refine ⟨hmain, ?_, ?_, ?_⟩
  · rw [hmain, List.length_map, List.length_drop]
  · rw [hmain, List.length_map, List.length_drop]
    have : (px.toNat : ℤ) = px := Int.toNat_of_nonneg hpx
    omega
  · rw [hmain]
    exact (List.drop_sublist px.toNat img).map _

theorem C9_boundary_truncation_witness :
    (0 : ℤ) ≤ 2 ∧ ((img4.length : ℤ) < 2 + 4) ∧ 0 < 4
    ∧ (patchOf img4 2 0 4).length = img4.length - (2 : ℤ).toNat
    ∧ (patchOf img4 2 0 4).length < 4 := by
  refine ⟨by decide, by decide, by decide, ?_, ?_⟩
  · exact (C9_boundary_truncation img4 2 0 4 (by decide) (by decide)
      (by decide)).2.1
  · exact (C9_boundary_truncation img4 2 0 4 (by decide) (by decide)
      (by decide)).2.2.1

/-- Claim C10 counterexample: the claim says every batch-size mismatch
between images and locations fails with an InvalidArgument condition.  The
code performs no such validation: one image with two locations runs to
completion and returns a full retina tensor. -/
theorem C10_counterexample :
    ([img4] : List Image).length ≠ ([((0:ℚ), (0:ℚ)), (0, 0)] :
      List (ℚ × ℚ)).length
    ∧ extract 2 1 2 [img4] [(0, 0), (0, 0)] =
        .ok [[[[[5], [6]], [[9], [10]]]]] := by
  refine ⟨by decide, ?_⟩
  with_unfolding_all decide

/-- Claim C10, amended: no batch-size validation exists.  A mismatched
call can fully succeed (see the counterexample); when the location batch
has at most one row the call fails — synchronously, with no partial
result — but with an IndexError from coordinate indexing, not an
InvalidArgument condition. -/
theorem C10_mismatch_amended (g k : ℕ) (s : ℚ) (x : List Image)
    (l : List (ℚ × ℚ)) (hl : l.length ≤ 1) (hk : 1 ≤ k) :
    extract g k s x l = .error .indexOutOfRange :=
  extract_err_of_esp g k s x l .indexOutOfRange hk
    (extractSinglePatch_err x l g (Or.inl hl))

theorem C10_mismatch_amended_witness :
    ([] : List (ℚ × ℚ)).length ≤ 1 ∧ 1 ≤ 2
    ∧ extract 3 2 (1/2) [img1] [] = .error .indexOutOfRange :=
  ⟨by decide, by decide,
    C10_mismatch_amended 3 2 (1/2) [img1] [] (by decide) (by decide)⟩

end RVA
